import Mathlib

/-!
Verification of the boss-spawn notification scheduler.

The embedding below is translated from the JavaScript source of the
repository (src/index.js and the unnamed variants).  Timestamps are
modelled as integers (milliseconds, as returned by Date.getTime);
JavaScript Date parsing of free text is an abstract parameter
(a function String to Option Time); the node-schedule timer table and
the application-level Map from boss name to job handle are modelled as
explicit association lists with the same insertion/replacement
semantics as a JavaScript Map (set replaces the value of an existing
key in place, clear empties the map).
-/

namespace BossTracker

abbrev Time := Int

/-- An entity row as produced by getBossData (name, location,
parsed next-spawn timestamp, status). -/
structure Boss where
  name : String
  location : String
  nextSpawn : Time
  status : String
deriving DecidableEq, Repr

/-- One scheduled timer: the data captured by the notification closure
at rebuild time, the computed fire time, and the lifecycle flags of the
underlying node-schedule job (cancel prevents firing; a date-based job
fires at most once). -/
structure Job where
  name : String
  location : String
  spawnTime : Time
  fireAt : Time
  cancelled : Bool
  fired : Bool
deriving DecidableEq, Repr

/-- The scheduling state: all jobs ever created (keyed by an id that
models the object identity of the node-schedule job), the application
Map scheduledJobs from boss name to job id, and the next fresh id. -/
structure SchedState where
  jobs : List (Nat × Job)
  registry : List (String × Nat)
  nextId : Nat
deriving DecidableEq, Repr

/-- The state at process start: no jobs, empty scheduledJobs map. -/
def startState : SchedState := ⟨[], [], 0⟩

/-- First-match lookup in the name-to-id map. -/
def regLookup : List (String × Nat) → String → Option Nat
  | [], _ => none
  | p :: rest, k => if p.1 = k then some p.2 else regLookup rest k

/-- First-match lookup in the job store. -/
def jobLookup : List (Nat × Job) → Nat → Option Job
  | [], _ => none
  | p :: rest, i => if p.1 = i then some p.2 else jobLookup rest i

/-- JavaScript Map.set: replace the value of an existing key in place,
otherwise append the new binding at the end. -/
def mapSet : List (String × Nat) → String → Nat → List (String × Nat)
  | [], k, v => [(k, v)]
  | p :: rest, k, v => if p.1 = k then (k, v) :: rest else p :: mapSet rest k v

/-- cancelAllJobs: job.cancel() on every job held in scheduledJobs,
then scheduledJobs.clear().  Only jobs referenced by the map are
cancelled. -/
def cancelAllJobs (s : SchedState) : SchedState :=
  { jobs := s.jobs.map fun p =>
      if p.1 ∈ s.registry.map Prod.snd then (p.1, { p.2 with cancelled := true }) else p,
    registry := [],
    nextId := s.nextId }

/-- Lead time in milliseconds from NOTIFY_BEFORE_MINUTES. -/
def leadMs (m : Int) : Time := m * 60 * 1000

/-- notificationTime = spawnTime.getTime() - notifyBeforeMinutes * 60 * 1000. -/
def fireTime (lead : Int) (b : Boss) : Time := b.nextSpawn - leadMs lead

/-- The job created by schedule.scheduleJob(notificationTime, callback):
the callback closes over (boss.name, boss.location, boss.nextSpawn). -/
def mkJob (b : Boss) (f : Time) : Job :=
  ⟨b.name, b.location, b.nextSpawn, f, false, false⟩

/-- The bossData.forEach loop of scheduleAllNotifications: for each
boss compute the notification time, skip it when that time is not in
the future, otherwise create the job and store it in scheduledJobs
under the boss name. -/
def installAll : List Boss → Int → Int → SchedState → SchedState
  | [], _, _, s => s
  | b :: rest, lead, now, s =>
    if fireTime lead b ≤ now then installAll rest lead now s
    else installAll rest lead now
      { jobs := s.jobs ++ [(s.nextId, mkJob b (fireTime lead b))],
        registry := mapSet s.registry b.name s.nextId,
        nextId := s.nextId + 1 }

/-- The scheduling core of scheduleAllNotifications, with the snapshot
already read: cancel every job held in the map, then install timers for
the snapshot. -/
def scheduleAllCore (snap : List Boss) (lead now : Int) (s : SchedState) : SchedState :=
  installAll snap lead now (cancelAllJobs s)

/-- The snapshot entities whose notification time is strictly in the
future, i.e. the ones the forEach loop does not skip. -/
def futures (lead now : Int) (snap : List Boss) : List Boss :=
  snap.filter fun b => decide (now < fireTime lead b)

/-- A spreadsheet row of the BossData sheet, columns A-D.  An empty
string models an empty or missing cell for the string columns (both
are falsy in JavaScript); the timestamp cell is Option so that the
read-time defaulting is explicit. -/
structure SheetRow where
  name : String
  location : String
  time : Option Time
  status : String
deriving DecidableEq, Repr

/-- row[i] || d, for the string columns. -/
def orDefault (v d : String) : String := if v = "" then d else v

/-- getBossData: read range BossData!A2:D (all rows below the header),
apply the per-column defaults (missing timestamp defaults to the time
of the read), and return [] when the read fails (the catch branch). -/
def getBossData (readOk : Bool) (readNow : Time) (rows : List SheetRow) : List Boss :=
  if readOk then
    (rows.drop 1).map fun r =>
      ⟨orDefault r.name "Unknown Boss", orDefault r.location "Unknown Location",
       r.time.getD readNow, orDefault r.status "upcoming"⟩
  else []

/-- scheduleAllNotifications: cancel all jobs, read a fresh snapshot,
install the timers, return true (internal errors of the read are
already caught inside getBossData, so the catch of this function is
not reached and the boolean result is true). -/
def scheduleAllNotifications (readOk : Bool) (rows : List SheetRow) (readNow now : Time)
    (lead : Int) (s : SchedState) : Bool × SchedState :=
  (true, installAll (getBossData readOk readNow rows) lead now (cancelAllJobs s))

/-- Write of row i: set the timestamp cell (column C) and reset the
status cell (column D) to upcoming, leaving all other rows alone. -/
def setRow : List SheetRow → Nat → Time → List SheetRow
  | [], _, _ => []
  | r :: rest, 0, t => { r with time := some t, status := "upcoming" } :: rest
  | r :: rest, n + 1, t => r :: setRow rest n t

/-- updateBossData: find the row whose name column equals bossName
exactly (scan of BossData!A:A, header row included), return false and
leave the sheet unchanged when no row matches (the thrown not-found
error is caught and turned into false), otherwise write the new
timestamp and reset the status. -/
def updateBossData (bossName : String) (t : Time) (rows : List SheetRow) :
    Bool × List SheetRow :=
  match rows.findIdx? (fun r => r.name == bossName) with
  | none => (false, rows)
  | some i => (true, setRow rows i t)

/-- One delivery attempt of the Notification Sink (a LINE push
message): the captured boss data and whether the push succeeded. -/
structure Sent where
  name : String
  location : String
  spawnTime : Time
  delivered : Bool
deriving DecidableEq, Repr

/-- The wall-clock scheduler reaching the fire time of the job with
the given id: a cancelled or already fired job does nothing (date
based node-schedule jobs are one-shot); otherwise the callback runs,
performing exactly one sendBossNotification call with the captured
data (its boolean result is awaited and discarded, so a failed push
changes nothing).  The callback does not touch scheduledJobs. -/
def fireJob (sinkOk : Bool) (s : SchedState) (id : Nat) : List Sent × SchedState :=
  match jobLookup s.jobs id with
  | none => ([], s)
  | some j =>
    if j.cancelled || j.fired then ([], s)
    else ([⟨j.name, j.location, j.spawnTime, sinkOk⟩],
          { s with jobs := s.jobs.map fun p =>
              if p.1 = id then (p.1, { p.2 with fired := true }) else p })

/-- The scheduler states reachable from process start through the
operations of the source: a rebuild from any snapshot (duplicate names
included), cancelAllJobs, and a timer firing. -/
inductive Reach : SchedState → Prop where
  | start : Reach startState
  | rebuild (snap : List Boss) (lead now : Int) {s : SchedState} :
      Reach s → Reach (scheduleAllCore snap lead now s)
  | cancel {s : SchedState} : Reach s → Reach (cancelAllJobs s)
  | fire (ok : Bool) (id : Nat) {s : SchedState} :
      Reach s → Reach (fireJob ok s id).2

/-- Every job id in the store is below the next fresh id. -/
def idsBelow (s : SchedState) : Prop := ∀ p ∈ s.jobs, p.1 < s.nextId

/-- Result of the manual test-notification endpoint handler. -/
structure TestNotifResult where
  ok : Bool
  rows : List SheetRow
  sent : List Sent
  sched : SchedState
deriving DecidableEq, Repr

/-- (1 * 60 + 58) * 60 * 1000 milliseconds: one hour and 58 minutes. -/
def testSpawnOffset : Time := (1 * 60 + 58) * 60 * 1000

/-- sendTestNotification: compute a spawn time 1 h 58 min from now,
write it for the TestBoss row of the sheet (the boolean result of the
write is discarded, so a missing row does not stop the path), send one
notification immediately with the synthetic data, and return true.
The function never touches scheduledJobs or node-schedule. -/
def sendTestNotification (sinkOk : Bool) (now : Time) (rows : List SheetRow)
    (sched : SchedState) : TestNotifResult :=
  let spawn := now + testSpawnOffset
  let upd := updateBossData "TestBoss" spawn rows
  { ok := true, rows := upd.2,
    sent := [⟨"TestBoss", "Test Location", spawn, sinkOk⟩],
    sched := sched }

/-- text.toLowerCase() restricted to the ASCII range, which is all the
command vocabulary uses. -/
def lowerString (s : String) : String := ⟨s.data.map Char.toLower⟩

/-- text.split(" "): split at every single space, keeping empty
pieces, as the JavaScript String.split with a string separator does. -/
def splitCharsAux : List Char → List Char → List (List Char)
  | [], acc => [acc.reverse]
  | c :: rest, acc =>
    if c = ' ' then acc.reverse :: splitCharsAux rest []
    else splitCharsAux rest (c :: acc)

/-- See splitCharsAux. -/
def splitSpaces (s : String) : List String :=
  (splitCharsAux s.data []).map fun cs => ⟨cs⟩

/-- text.startsWith(prefixText). -/
def isPrefixOfList : List Char → List Char → Bool
  | [], _ => true
  | _ :: _, [] => false
  | a :: as, b :: bs => a == b && isPrefixOfList as bs

/-- See isPrefixOfList. -/
def startsWithStr (prefixText s : String) : Bool :=
  isPrefixOfList prefixText.data s.data

/-- parts.slice(2).join(" "). -/
def joinSpaces : List String → String
  | [] => ""
  | [x] => x
  | x :: y :: rest => x ++ " " ++ joinSpaces (y :: rest)

/-- An inbound LINE webhook event: either not a text message (ignored)
or a text message with its sender id and text. -/
inductive LineEvent where
  | nonText
  | textMsg (userId text : String)
deriving DecidableEq

/-- The environment of one webhook request: the JavaScript Date
parsing of free text (external), whether replyMessage deliveries
succeed, whether the sheet read succeeds, the read-time clock, the
loop-time clock and the configured lead minutes. -/
structure WebEnv where
  parseDate : String → Option Time
  replyOk : Bool
  readOk : Bool
  readNow : Time
  now : Time
  lead : Int

/-- The mutable state the webhook touches: the sheet, the scheduler,
the replies sent so far, and how many rebuilds were triggered. -/
structure WebState where
  rows : List SheetRow
  sched : SchedState
  replies : List String
  rebuilds : Nat
deriving DecidableEq

instance {ε α : Type} [DecidableEq ε] [DecidableEq α] : DecidableEq (Except ε α) := fun a b =>
  match a, b with
  | .ok x, .ok y => decidable_of_iff (x = y) (by simp)
  | .error x, .error y => decidable_of_iff (x = y) (by simp)
  | .ok _, .error _ => isFalse (by simp)
  | .error _, .ok _ => isFalse (by simp)

/-- The fixed reply of the inner catch of the update command. -/
def updateFormatErrorMsg : String :=
  "Error updating boss spawn time. Please check the format: !update BossName YYYY-MM-DD HH:MM:SS"

/-- Reply when updateBossData returned false. -/
def updateFailMsg (nm : String) : String := "Failed to update spawn time for " ++ nm

/-- Confirmation reply of a successful update. -/
def updateOkMsg (nm dt : String) : String := "Updated spawn time for " ++ nm ++ " to " ++ dt

/-- Reply of the myid command. -/
def myIdMsg (uid : String) : String := "Your User ID is: " ++ uid

/-- lineClient.replyMessage: appends the reply when the transport
accepts it, otherwise the promise rejects (modelled as Except.error). -/
def sendReply (env : WebEnv) (st : WebState) (msg : String) : Except Unit WebState :=
  if env.replyOk then .ok { st with replies := st.replies ++ [msg] } else .error ()

/-- The inner try/catch of the update command, split in two definitions
(afterUpdateState, then handleUpdate below): parse the
date text (new Date(s).toISOString() throws on an unparseable date,
landing in the catch, which sends the format-error reply), otherwise
write the sheet; on a successful write rebuild the schedule and send
the confirmation, on a failed write send the failure reply.  A throwing
reply inside the try lands in the same catch, whose own reply may
throw out of the event. -/
def afterUpdateState (env : WebEnv) (st : WebState) (newRows : List SheetRow) : WebState :=
  { st with
    rows := newRows,
    sched := (scheduleAllNotifications env.readOk newRows env.readNow env.now
                env.lead st.sched).2,
    rebuilds := st.rebuilds + 1 }

/-- The body of the update command; see the comment above
afterUpdateState, which is the state after the sheet write and the
rebuild of a successful update. -/
def handleUpdate (env : WebEnv) (st : WebState) (bossName dateTimeStr : String) :
    Except Unit WebState :=
  match env.parseDate dateTimeStr with
  | none => sendReply env st updateFormatErrorMsg
  | some t =>
    if (updateBossData bossName t st.rows).1 then
      match sendReply env (afterUpdateState env st (updateBossData bossName t st.rows).2)
          (updateOkMsg bossName dateTimeStr) with
      | .ok st3 => .ok st3
      | .error _ => sendReply env (afterUpdateState env st (updateBossData bossName t st.rows).2)
          updateFormatErrorMsg
    else
      match sendReply env { st with rows := (updateBossData bossName t st.rows).2 }
          (updateFailMsg bossName) with
      | .ok st3 => .ok st3
      | .error _ => sendReply env { st with rows := (updateBossData bossName t st.rows).2 }
          updateFormatErrorMsg

/-- Processing of one webhook event: non-text events are ignored;
"myid" (case-insensitive) echoes the sender id; a text starting with
"!update" with at least three space-separated parts runs the update
command with parts[1] as the name and the rest joined as the date
text; anything else is ignored. -/
def processEvent (env : WebEnv) (st : WebState) (ev : LineEvent) : Except Unit WebState :=
  match ev with
  | .nonText => .ok st
  | .textMsg userId text =>
    if lowerString text = "myid" then sendReply env st (myIdMsg userId)
    else if startsWithStr "!update" text then
      if 3 ≤ (splitSpaces text).length then
        handleUpdate env st ((splitSpaces text).getD 1 "")
          (joinSpaces ((splitSpaces text).drop 2))
      else .ok st
    else .ok st

/-- Promise.all over the events: the combined promise is fulfilled
when every event handler is, and rejects when one rejects. -/
def runEvents (env : WebEnv) : WebState → List LineEvent → Except Unit WebState
  | st, [] => .ok st
  | st, e :: rest =>
    match processEvent env st e with
    | .ok st2 => runEvents env st2 rest
    | .error u => .error u

/-- The HTTP status the webhook handler sends: 200 from the try branch
when Promise.all fulfills, 500 from the catch when it rejects. -/
def webhookStatus (env : WebEnv) (st : WebState) (events : List LineEvent) : Nat :=
  match runEvents env st events with
  | .ok _ => 200
  | .error _ => 500

/-! Helper lemmas about the map and job-store primitives. -/

theorem regLookup_mapSet_self (reg : List (String × Nat)) (k : String) (v : Nat) :
    regLookup (mapSet reg k v) k = some v := by
  induction reg with
  | nil => simp [mapSet, regLookup]
  | cons p rest ih =>
    by_cases h : p.1 = k
    · simp [mapSet, regLookup, h]
    · simp [mapSet, regLookup, h, ih]

theorem regLookup_mapSet_ne (reg : List (String × Nat)) (k : String) (v : Nat)
    (k2 : String) (h : k2 ≠ k) :
    regLookup (mapSet reg k v) k2 = regLookup reg k2 := by
  induction reg with
  | nil => simp [mapSet, regLookup, Ne.symm h]
  | cons p rest ih =>
    by_cases hp : p.1 = k
    · subst hp
      simp [mapSet, regLookup, Ne.symm h]
    · simp [mapSet, regLookup, hp, ih]

theorem mapSet_length_fresh (reg : List (String × Nat)) (k : String) (v : Nat)
    (h : regLookup reg k = none) :
    (mapSet reg k v).length = reg.length + 1 := by
  induction reg with
  | nil => simp [mapSet]
  | cons p rest ih =>
    by_cases hp : p.1 = k
    · simp [regLookup, hp] at h
    · simp [regLookup, hp] at h
      simp [mapSet, hp, ih h]

theorem mem_keys_mapSet (reg : List (String × Nat)) (k : String) (v : Nat) (k2 : String) :
    k2 ∈ (mapSet reg k v).map Prod.fst ↔ k2 ∈ reg.map Prod.fst ∨ k2 = k := by
  induction reg with
  | nil => simp [mapSet]
  | cons p rest ih =>
    by_cases hp : p.1 = k
    · subst hp
      simp [mapSet]
      tauto
    · simp [mapSet, hp, ih]
      tauto

theorem mapSet_keys_nodup (reg : List (String × Nat)) (k : String) (v : Nat)
    (h : (reg.map Prod.fst).Nodup) :
    ((mapSet reg k v).map Prod.fst).Nodup := by
  induction reg with
  | nil => simp [mapSet]
  | cons p rest ih =>
    simp only [List.map_cons, List.nodup_cons] at h
    by_cases hp : p.1 = k
    · subst hp
      have hm : mapSet (p :: rest) p.1 v = (p.1, v) :: rest := by simp [mapSet]
      rw [hm, List.map_cons, List.nodup_cons]
      exact ⟨h.1, h.2⟩
    · simp only [mapSet, if_neg hp, List.map_cons, List.nodup_cons]
      refine ⟨?_, ih h.2⟩
      rw [mem_keys_mapSet]
      rintro (hm | hm)
      · exact h.1 hm
      · exact hp hm

theorem jobLookup_append_some (l t : List (Nat × Job)) (i : Nat) (j : Job)
    (h : jobLookup l i = some j) : jobLookup (l ++ t) i = some j := by
  induction l with
  | nil => simp [jobLookup] at h
  | cons p rest ih =>
    by_cases hp : p.1 = i
    · simpa [jobLookup, hp] using h
    · simp [jobLookup, hp] at h ⊢
      exact ih h

theorem jobLookup_append_none (l t : List (Nat × Job)) (i : Nat)
    (h : jobLookup l i = none) : jobLookup (l ++ t) i = jobLookup t i := by
  induction l with
  | nil => simp [jobLookup]
  | cons p rest ih =>
    by_cases hp : p.1 = i
    · simp [jobLookup, hp] at h
    · simp [jobLookup, hp] at h ⊢
      exact ih h

theorem jobLookup_none_of_ids_lt (l : List (Nat × Job)) (n i : Nat)
    (h : ∀ p ∈ l, p.1 < n) (hi : n ≤ i) : jobLookup l i = none := by
  induction l with
  | nil => simp [jobLookup]
  | cons p rest ih =>
    have hp : p.1 < n := h p (by simp)
    have : p.1 ≠ i := by omega
    simp [jobLookup, this]
    exact ih fun q hq => h q (by simp [hq])

theorem jobLookup_map_fired (l : List (Nat × Job)) (id : Nat) :
    jobLookup (l.map fun p => if p.1 = id then (p.1, { p.2 with fired := true }) else p) id
      = (jobLookup l id).map fun j => { j with fired := true } := by
  induction l with
  | nil => simp [jobLookup]
  | cons p rest ih =>
    by_cases hp : p.1 = id
    · simp [jobLookup, hp]
    · simp [jobLookup, hp, ih]

theorem jobLookup_map_mark (l : List (Nat × Job)) (ids : List Nat) (id : Nat)
    (h : id ∈ ids) :
    jobLookup (l.map fun p => if p.1 ∈ ids then (p.1, { p.2 with cancelled := true }) else p) id
      = (jobLookup l id).map fun j => { j with cancelled := true } := by
  induction l with
  | nil => simp [jobLookup]
  | cons p rest ih =>
    by_cases hp : p.1 = id
    · subst hp
      simp [jobLookup, h]
    · by_cases hm : p.1 ∈ ids
      · simp [jobLookup, hp, hm, ih]
      · simp [jobLookup, hp, hm, ih]

/-! Lemmas about the rebuild loop. -/

theorem futures_cons (lead now : Int) (b : Boss) (rest : List Boss) :
    futures lead now (b :: rest)
      = if now < fireTime lead b then b :: futures lead now rest
        else futures lead now rest := by
  by_cases h : now < fireTime lead b <;> simp [futures, List.filter_cons, h]

theorem installAll_regLookup_untouched (snap : List Boss) (lead now : Int)
    (s : SchedState) (k : String)
    (h : ∀ b ∈ snap, b.name = k → fireTime lead b ≤ now) :
    regLookup (installAll snap lead now s).registry k = regLookup s.registry k := by
  induction snap generalizing s with
  | nil => rfl
  | cons b rest ih =>
    simp only [installAll]
    by_cases hb : fireTime lead b ≤ now
    · rw [if_pos hb]
      exact ih _ fun b2 hb2 => h b2 (by simp [hb2])
    · rw [if_neg hb]
      have hk : b.name ≠ k := fun hk => hb (h b (by simp) hk)
      rw [ih _ fun b2 hb2 => h b2 (by simp [hb2])]
      exact regLookup_mapSet_ne _ _ _ _ (Ne.symm hk)

theorem installAll_jobs_append (snap : List Boss) (lead now : Int) (s : SchedState) :
    ∃ tail, (installAll snap lead now s).jobs = s.jobs ++ tail := by
  induction snap generalizing s with
  | nil => exact ⟨[], by simp [installAll]⟩
  | cons b rest ih =>
    simp only [installAll]
    by_cases hb : fireTime lead b ≤ now
    · rw [if_pos hb]; exact ih s
    · rw [if_neg hb]
      obtain ⟨tail, htail⟩ := ih
        { jobs := s.jobs ++ [(s.nextId, mkJob b (fireTime lead b))],
          registry := mapSet s.registry b.name s.nextId,
          nextId := s.nextId + 1 }
      exact ⟨(s.nextId, mkJob b (fireTime lead b)) :: tail, by simp [htail]⟩

theorem installAll_idsBelow (snap : List Boss) (lead now : Int) (s : SchedState)
    (h : idsBelow s) : idsBelow (installAll snap lead now s) := by
  induction snap generalizing s with
  | nil => exact h
  | cons b rest ih =>
    simp only [installAll]
    by_cases hb : fireTime lead b ≤ now
    · rw [if_pos hb]; exact ih _ h
    · rw [if_neg hb]
      refine ih _ ?_
      intro p hp
      simp only [List.mem_append, List.mem_singleton] at hp
      show p.1 < s.nextId + 1
      rcases hp with hp | hp
      · have := h p hp; omega
      · subst hp; omega

theorem installAll_keys_nodup (snap : List Boss) (lead now : Int) (s : SchedState)
    (h : (s.registry.map Prod.fst).Nodup) :
    ((installAll snap lead now s).registry.map Prod.fst).Nodup := by
  induction snap generalizing s with
  | nil => exact h
  | cons b rest ih =>
    simp only [installAll]
    by_cases hb : fireTime lead b ≤ now
    · rw [if_pos hb]; exact ih _ h
    · rw [if_neg hb]
      exact ih _ (mapSet_keys_nodup _ _ _ h)

theorem installAll_reg_length (snap : List Boss) (lead now : Int) (s : SchedState)
    (hnd : ((futures lead now snap).map Boss.name).Nodup)
    (hfresh : ∀ b ∈ futures lead now snap, regLookup s.registry b.name = none) :
    (installAll snap lead now s).registry.length
      = s.registry.length + (futures lead now snap).length := by
  induction snap generalizing s with
  | nil => simp [installAll, futures]
  | cons b rest ih =>
    simp only [installAll]
    by_cases hb : fireTime lead b ≤ now
    · have hn : ¬ now < fireTime lead b := not_lt.mpr hb
      have hfut : futures lead now (b :: rest) = futures lead now rest := by
        rw [futures_cons, if_neg hn]
      rw [if_pos hb, hfut]
      rw [hfut] at hnd hfresh
      exact ih _ hnd hfresh
    · have hlt : now < fireTime lead b := not_le.mp hb
      have hfut : futures lead now (b :: rest) = b :: futures lead now rest := by
        rw [futures_cons, if_pos hlt]
      rw [hfut] at hnd hfresh
      rw [if_neg hb, hfut]
      simp only [List.map_cons, List.nodup_cons] at hnd
      have hfb : regLookup s.registry b.name = none := hfresh b (by simp)
      have hrest : ∀ b2 ∈ futures lead now rest,
          regLookup (mapSet s.registry b.name s.nextId) b2.name = none := by
        intro b2 hb2
        have hne : b2.name ≠ b.name := fun he => hnd.1 (he ▸ List.mem_map_of_mem _ hb2)
        rw [regLookup_mapSet_ne _ _ _ _ hne]
        exact hfresh b2 (by simp [hb2])
      have := ih { jobs := s.jobs ++ [(s.nextId, mkJob b (fireTime lead b))],
                   registry := mapSet s.registry b.name s.nextId,
                   nextId := s.nextId + 1 } hnd.2 hrest
      simp only [this, List.length_cons]
      rw [mapSet_length_fresh _ _ _ hfb]
      omega

theorem installAll_lookup_future (snap : List Boss) (lead now : Int) (s : SchedState)
    (hnd : (snap.map Boss.name).Nodup) (hid : idsBelow s)
    (b : Boss) (hb : b ∈ snap) (hf : now < fireTime lead b) :
    ∃ id, regLookup (installAll snap lead now s).registry b.name = some id ∧
      jobLookup (installAll snap lead now s).jobs id
        = some (mkJob b (fireTime lead b)) := by
  induction snap generalizing s with
  | nil => simp at hb
  | cons b0 rest ih =>
    simp only [List.map_cons, List.nodup_cons] at hnd
    rcases List.mem_cons.mp hb with hb0 | hbrest
    · subst hb0
      simp only [installAll]
      have hn : ¬ fireTime lead b ≤ now := not_le.mpr hf
      rw [if_neg hn]
      refine ⟨s.nextId, ?_, ?_⟩
      · rw [installAll_regLookup_untouched _ _ _ _ _ ?_]
        · exact regLookup_mapSet_self _ _ _
        · intro b2 hb2 hname
          exact absurd (hname ▸ List.mem_map_of_mem Boss.name hb2) hnd.1
      · obtain ⟨tail, htail⟩ := installAll_jobs_append rest lead now
          { jobs := s.jobs ++ [(s.nextId, mkJob b (fireTime lead b))],
            registry := mapSet s.registry b.name s.nextId,
            nextId := s.nextId + 1 }
        rw [htail]
        have hnone : jobLookup s.jobs s.nextId = none :=
          jobLookup_none_of_ids_lt _ s.nextId _ hid (le_refl _)
        rw [List.append_assoc, jobLookup_append_none _ _ _ hnone]
        simp [jobLookup]
    · simp only [installAll]
      by_cases hb0 : fireTime lead b0 ≤ now
      · rw [if_pos hb0]
        exact ih _ hnd.2 hid hbrest
      · rw [if_neg hb0]
        refine ih _ hnd.2 ?_ hbrest
        intro p hp
        simp only [List.mem_append, List.mem_singleton] at hp
        show p.1 < s.nextId + 1
        rcases hp with hp | hp
        · have := hid p hp; omega
        · subst hp; omega

/-! Lemmas about cancelAllJobs and fireJob. -/

theorem cancelAll_idem (s : SchedState) :
    cancelAllJobs (cancelAllJobs s) = cancelAllJobs s := by
  simp [cancelAllJobs]

theorem cancelAll_fire_silent (s : SchedState) (id : Nat)
    (h : id ∈ s.registry.map Prod.snd) (ok : Bool) :
    (fireJob ok (cancelAllJobs s) id).1 = [] := by
  have hl : jobLookup (cancelAllJobs s).jobs id
      = (jobLookup s.jobs id).map fun j => { j with cancelled := true } :=
    jobLookup_map_mark s.jobs _ id h
  unfold fireJob
  rw [hl]
  cases jobLookup s.jobs id with
  | none => rfl
  | some j => simp

theorem fire_registry_eq (ok : Bool) (s : SchedState) (id : Nat) :
    (fireJob ok s id).2.registry = s.registry := by
  unfold fireJob
  split
  · rfl
  · split
    · rfl
    · rfl

theorem fire_idsBelow (ok : Bool) (s : SchedState) (id : Nat)
    (h : idsBelow s) : idsBelow (fireJob ok s id).2 := by
  unfold fireJob
  split
  · exact h
  · split
    · exact h
    · intro p hp
      simp only [List.mem_map] at hp
      obtain ⟨q, hq, hpq⟩ := hp
      show p.1 < s.nextId
      by_cases h1 : q.1 = id
      · rw [if_pos h1] at hpq
        subst hpq
        exact h q hq
      · rw [if_neg h1] at hpq
        subst hpq
        exact h q hq

theorem cancelAll_idsBelow (s : SchedState) (h : idsBelow s) :
    idsBelow (cancelAllJobs s) := by
  intro p hp
  simp only [cancelAllJobs, List.mem_map] at hp
  obtain ⟨q, hq, hpq⟩ := hp
  show p.1 < s.nextId
  split at hpq <;> (subst hpq; exact h q hq)

/-- Reachable scheduler states are well formed: job ids are below the
fresh-id counter, and the scheduledJobs map has no duplicate key (a
JavaScript Map cannot). -/
theorem reach_wf {s : SchedState} (h : Reach s) :
    idsBelow s ∧ (s.registry.map Prod.fst).Nodup := by
  induction h with
  | start => exact ⟨fun p hp => by simp [startState] at hp, by simp [startState]⟩
  | rebuild snap lead now hr ih =>
    refine ⟨installAll_idsBelow _ _ _ _ (cancelAll_idsBelow _ ih.1), ?_⟩
    exact installAll_keys_nodup _ _ _ _ (by simp [cancelAllJobs])
  | cancel hr ih =>
    exact ⟨cancelAll_idsBelow _ ih.1, by simp [cancelAllJobs]⟩
  | fire ok id hr ih =>
    refine ⟨fire_idsBelow _ _ _ ih.1, ?_⟩
    rw [fire_registry_eq]
    exact ih.2

theorem filter_key_length_le_one (l : List (String × Nat)) (nm : String)
    (h : (l.map Prod.fst).Nodup) :
    (l.filter fun q => q.1 == nm).length ≤ 1 := by
  induction l with
  | nil => simp
  | cons p rest ih =>
    simp only [List.map_cons, List.nodup_cons] at h
    rw [List.filter_cons]
    by_cases hp : p.1 = nm
    · have hnil : rest.filter (fun q => q.1 == nm) = [] := by
        rw [List.filter_eq_nil_iff]
        intro q hq hbq
        rw [beq_iff_eq] at hbq
        exact h.1 (hp ▸ hbq ▸ List.mem_map_of_mem Prod.fst hq)
      simp [hp, hnil]
    · have hb : (p.1 == nm) = false := beq_eq_false_iff_ne.mpr hp
      rw [if_neg (by simp [hb])]
      exact ih h.2

/-! Lemmas about the sheet write and the webhook success path. -/

theorem fireJob_twice_silent (ok1 ok2 : Bool) (s : SchedState) (id : Nat) :
    (fireJob ok2 (fireJob ok1 s id).2 id).1 = [] := by
  cases hl : jobLookup s.jobs id with
  | none =>
    have hs : (fireJob ok1 s id).2 = s := by simp [fireJob, hl]
    rw [hs]
    simp [fireJob, hl]
  | some j =>
    by_cases hc : (j.cancelled || j.fired) = true
    · have hs : (fireJob ok1 s id).2 = s := by simp [fireJob, hl, hc]
      rw [hs]
      simp [fireJob, hl, hc]
    · have hs : (fireJob ok1 s id).2
          = { s with jobs := s.jobs.map fun p =>
              if p.1 = id then (p.1, { p.2 with fired := true }) else p } := by
        simp [fireJob, hl, hc]
      rw [hs]
      have hm : jobLookup ((fireJob ok1 s id).2.jobs) id
          = some { j with fired := true } := by
        rw [hs]
        show jobLookup (s.jobs.map
          (fun p => if p.1 = id then (p.1, { p.2 with fired := true }) else p)) id = _
        rw [jobLookup_map_fired, hl]
        rfl
      rw [hs] at hm
      simp [fireJob, hm]

theorem setRow_get_self (rows : List SheetRow) (i : Nat) (t : Time) (r : SheetRow)
    (h : rows[i]? = some r) :
    (setRow rows i t)[i]? = some { r with time := some t, status := "upcoming" } := by
  induction rows generalizing i with
  | nil => simp at h
  | cons r0 rest ih =>
    cases i with
    | zero =>
      simp only [List.getElem?_cons_zero, Option.some.injEq] at h
      subst h
      simp [setRow]
    | succ n =>
      simp only [List.getElem?_cons_succ] at h
      simp only [setRow, List.getElem?_cons_succ]
      exact ih n h

theorem sendReply_ok_eq (env : WebEnv) (st : WebState) (msg : String)
    (h : env.replyOk = true) :
    sendReply env st msg = .ok { st with replies := st.replies ++ [msg] } := by
  simp [sendReply, h]

theorem handleUpdate_isOk (env : WebEnv) (st : WebState) (nm dt : String)
    (h : env.replyOk = true) : ∃ st2, handleUpdate env st nm dt = .ok st2 := by
  unfold handleUpdate
  cases env.parseDate dt with
  | none => exact ⟨_, sendReply_ok_eq _ _ _ h⟩
  | some t =>
    simp only [sendReply_ok_eq _ _ _ h]
    split
    · exact ⟨_, rfl⟩
    · exact ⟨_, rfl⟩

theorem processEvent_isOk (env : WebEnv) (st : WebState) (ev : LineEvent)
    (h : env.replyOk = true) : ∃ st2, processEvent env st ev = .ok st2 := by
  cases ev with
  | nonText => exact ⟨st, rfl⟩
  | textMsg uid text =>
    show ∃ st2,
      (if lowerString text = "myid" then sendReply env st (myIdMsg uid)
       else if startsWithStr "!update" text = true then
         if 3 ≤ (splitSpaces text).length then
           handleUpdate env st ((splitSpaces text).getD 1 "")
             (joinSpaces ((splitSpaces text).drop 2))
         else Except.ok st
       else Except.ok st) = Except.ok st2
    by_cases h1 : lowerString text = "myid"
    · rw [if_pos h1]
      exact ⟨_, sendReply_ok_eq _ _ _ h⟩
    · rw [if_neg h1]
      by_cases h2 : startsWithStr "!update" text = true
      · rw [if_pos h2]
        by_cases h3 : 3 ≤ (splitSpaces text).length
        · rw [if_pos h3]
          exact handleUpdate_isOk _ _ _ _ h
        · rw [if_neg h3]
          exact ⟨st, rfl⟩
      · rw [if_neg h2]
        exact ⟨st, rfl⟩

theorem runEvents_isOk (env : WebEnv) (h : env.replyOk = true)
    (events : List LineEvent) : ∀ st, ∃ st2, runEvents env st events = .ok st2 := by
  induction events with
  | nil => intro st; exact ⟨st, rfl⟩
  | cons e rest ih =>
    intro st
    obtain ⟨st2, h2⟩ := processEvent_isOk env st e h
    obtain ⟨st3, h3⟩ := ih st2
    exact ⟨st3, by simp [runEvents, h2, h3]⟩

/-! Claim theorems. -/

/-- C1 (amended): for a rebuild whose snapshot has pairwise distinct
entity names, every entity is handled with fire time
nextOccurrence - leadTime: an entity with fire time at or before now is
skipped and has no timer in the registry; every other entity has a
registry timer whose captured data is the snapshot entity and whose
fire time is occurrence - leadTime; and the number of timers in the
registry equals the number of snapshot entities with
occurrence - leadTime strictly greater than now.  (With duplicate
names the registry keeps only the last timer per name, so the
unconditional count equality of the original claim fails; see the
counterexample.) -/
theorem rebuild_contract (snap : List Boss) (lead now : Int) (s : SchedState)
    (hid : idsBelow s) (hnd : (snap.map Boss.name).Nodup) :
    (∀ b ∈ snap, fireTime lead b ≤ now →
        regLookup (scheduleAllCore snap lead now s).registry b.name = none) ∧
    (∀ b ∈ snap, now < fireTime lead b →
        ∃ id, regLookup (scheduleAllCore snap lead now s).registry b.name = some id ∧
          jobLookup (scheduleAllCore snap lead now s).jobs id
            = some (mkJob b (fireTime lead b))) ∧
    (scheduleAllCore snap lead now s).registry.length
      = (futures lead now snap).length := by
  refine ⟨?_, ?_, ?_⟩
  · intro b hb hskip
    unfold scheduleAllCore
    rw [installAll_regLookup_untouched _ _ _ _ _ ?_]
    · rfl
    · intro b2 hb2 hname
      have hbb : b2 = b := List.inj_on_of_nodup_map hnd hb2 hb hname
      rw [hbb]
      exact hskip
  · intro b hb hf
    exact installAll_lookup_future snap lead now (cancelAllJobs s) hnd
      (cancelAll_idsBelow s hid) b hb hf
  · unfold scheduleAllCore
    rw [installAll_reg_length _ _ _ _ ?_ ?_]
    · show ([] : List (String × Nat)).length + _ = _
      simp
    · exact hnd.sublist ((List.filter_sublist snap).map Boss.name)
    · intro b hb
      rfl

/-- C1, witness: the spec scenario with one entity one hour ahead and
30 minutes of lead time installs exactly one timer. -/
theorem rebuild_contract_witness :
    (scheduleAllCore [⟨"Death", "Castle", 3600000, "upcoming"⟩] 30 0 startState).registry.length
      = (futures 30 0 [⟨"Death", "Castle", 3600000, "upcoming"⟩]).length :=
  (rebuild_contract [⟨"Death", "Castle", 3600000, "upcoming"⟩] 30 0 startState
    (by intro p hp; simp [startState] at hp) (by simp)).2.2

/-- C1, counterexample: a snapshot with two future entities of the same
name yields one registry timer, not two, because Map.set overwrites the
entry, so the original unconditional count equality is false. -/
theorem rebuild_count_cex :
    (scheduleAllCore [⟨"A", "L1", 100, "upcoming"⟩, ⟨"A", "L2", 200, "upcoming"⟩] 0 0
        startState).registry.length
      ≠ (futures 0 0 [⟨"A", "L1", 100, "upcoming"⟩, ⟨"A", "L2", 200, "upcoming"⟩]).length := by
  decide

/-- C2: at every reachable state the scheduledJobs registry holds at
most one timer per entity name, and every operation (rebuild from any
snapshot, duplicate names included, cancelAllJobs, timer replacement
via Map.set inside a rebuild, and a timer firing) stays within the
reachable states, so the invariant is preserved. -/
theorem timer_registry_unique (s : SchedState) (h : Reach s) (nm : String) :
    (s.registry.filter fun q => q.1 == nm).length ≤ 1 :=
  filter_key_length_le_one _ _ (reach_wf h).2

/-- C2, witness: the invariant at a state rebuilt from a snapshot that
contains the same name twice. -/
theorem timer_registry_unique_witness :
    ((scheduleAllCore [⟨"C", "L1", 100, "upcoming"⟩, ⟨"C", "L2", 200, "upcoming"⟩] 0 0
        startState).registry.filter fun q => q.1 == "C").length ≤ 1 :=
  timer_registry_unique _ (Reach.rebuild _ 0 0 Reach.start) "C"

/-- C3 (amended): when the timer of a future-scheduled entity fires,
the Notification Sink is invoked exactly once with the data captured
at rebuild time (the fire step takes no store input at all); a sink
failure leaves the resulting state identical to a sink success (no
retry, no re-arm), and a second fire of the same timer emits nothing;
however the registry entry of the fired timer is NOT removed (the
callback never touches scheduledJobs), which corrects the removal part
of the original claim. -/
theorem fired_timer_contract (snap : List Boss) (lead now : Int) (s : SchedState)
    (hid : idsBelow s) (hnd : (snap.map Boss.name).Nodup)
    (b : Boss) (hb : b ∈ snap) (hf : now < fireTime lead b) :
    ∃ id, regLookup (scheduleAllCore snap lead now s).registry b.name = some id ∧
      ∀ ok, (fireJob ok (scheduleAllCore snap lead now s) id).1
              = [⟨b.name, b.location, b.nextSpawn, ok⟩] ∧
            (fireJob ok (scheduleAllCore snap lead now s) id).2.registry
              = (scheduleAllCore snap lead now s).registry ∧
            (fireJob true (scheduleAllCore snap lead now s) id).2
              = (fireJob false (scheduleAllCore snap lead now s) id).2 ∧
            (fireJob ok (fireJob ok (scheduleAllCore snap lead now s) id).2 id).1 = [] := by
  obtain ⟨id, hreg0, hjob0⟩ := installAll_lookup_future snap lead now (cancelAllJobs s) hnd
    (cancelAll_idsBelow s hid) b hb hf
  have hreg : regLookup (scheduleAllCore snap lead now s).registry b.name = some id := hreg0
  have hjob : jobLookup (scheduleAllCore snap lead now s).jobs id
      = some (mkJob b (fireTime lead b)) := hjob0
  have h1 : ∀ ok2 : Bool, fireJob ok2 (scheduleAllCore snap lead now s) id
      = ([⟨b.name, b.location, b.nextSpawn, ok2⟩],
         { scheduleAllCore snap lead now s with
           jobs := (scheduleAllCore snap lead now s).jobs.map
             fun p => if p.1 = id then (p.1, { p.2 with fired := true }) else p }) := by
    intro ok2
    simp [fireJob, hjob, mkJob]
  refine ⟨id, hreg, fun ok => ⟨?_, ?_, ?_, ?_⟩⟩
  · rw [h1 ok]
  · exact fire_registry_eq ok _ id
  · rw [h1 true, h1 false]
  · exact fireJob_twice_silent ok ok _ id

/-- C3, witness: firing the single installed timer emits one sink call
with the captured data. -/
theorem fired_timer_contract_witness :
    (fireJob true (scheduleAllCore [⟨"A", "L", 100, "upcoming"⟩] 0 0 startState) 0).1
      = [⟨"A", "L", 100, true⟩] := by
  obtain ⟨id, hreg, hprops⟩ := fired_timer_contract [⟨"A", "L", 100, "upcoming"⟩] 0 0 startState
    (by intro p hp; simp [startState] at hp) (by simp)
    ⟨"A", "L", 100, "upcoming"⟩ (by simp) (by decide)
  have h0 : regLookup (scheduleAllCore [⟨"A", "L", 100, "upcoming"⟩] 0 0
      startState).registry "A" = some 0 := by decide
  have hid : id = 0 := Option.some.inj (hreg.symm.trans h0)
  subst hid
  exact (hprops true).1

/-- C3, counterexample: after the timer fires, its scheduledJobs entry
is still present (the original claim says it is removed). -/
theorem fire_keeps_registry_entry_cex :
    regLookup (fireJob true (scheduleAllCore [⟨"A", "L", 100, "upcoming"⟩] 0 0
        startState) 0).2.registry "A" = some 0 := by
  decide

/-- C4 (amended): every rebuild call returns a boolean success flag
(true, since all internal errors of the snapshot read are caught inside
getBossData); it does not return installed/skipped/total counts — the
skips are only written to the log. -/
theorem rebuild_returns_bool (readOk : Bool) (rows : List SheetRow) (readNow now : Time)
    (lead : Int) (s : SchedState) :
    (scheduleAllNotifications readOk rows readNow now lead s).1 = true := rfl

/-- C4, counterexample: two rebuild calls, one installing one timer and
skipping none, the other installing none and skipping one, return the
very same value, so the returned result cannot contain the
{installed, skipped, total} counts claimed. -/
theorem rebuild_no_counts_cex :
    (scheduleAllNotifications true
        [⟨"hdrA", "hdrB", none, ""⟩, ⟨"A", "L", some 100, "upcoming"⟩] 0 0 0 startState).1
      = (scheduleAllNotifications true
        [⟨"hdrA", "hdrB", none, ""⟩, ⟨"B", "L", some 0, "upcoming"⟩] 0 0 0 startState).1
    ∧ (futures 0 0 (getBossData true 0
        [⟨"hdrA", "hdrB", none, ""⟩, ⟨"A", "L", some 100, "upcoming"⟩])).length = 1
    ∧ (futures 0 0 (getBossData true 0
        [⟨"hdrA", "hdrB", none, ""⟩, ⟨"B", "L", some 0, "upcoming"⟩])).length = 0 := by
  decide

/-- C5 (amended): the manual test-notification path sends exactly one
notification synchronously at call time for the synthetic entity
(TestBoss, Test Location, now + 1 h 58 min) and writes that entity to
the sheet row named TestBoss, but it arms NO timer: the scheduler
state is returned untouched, and no scheduleSingle function exists in
the source.  A reminder would only arise from a later rebuild reading
the updated sheet. -/
theorem test_notification_contract (sinkOk : Bool) (now : Time) (rows : List SheetRow)
    (sched : SchedState) :
    (sendTestNotification sinkOk now rows sched).sched = sched ∧
    (sendTestNotification sinkOk now rows sched).sent
      = [⟨"TestBoss", "Test Location", now + testSpawnOffset, sinkOk⟩] ∧
    (sendTestNotification sinkOk now rows sched).ok = true ∧
    ∀ i r, rows.findIdx? (fun rr => rr.name == "TestBoss") = some i →
      rows[i]? = some r →
      (sendTestNotification sinkOk now rows sched).rows[i]?
        = some { r with time := some (now + testSpawnOffset), status := "upcoming" } := by
  refine ⟨rfl, rfl, rfl, ?_⟩
  intro i r hfind hget
  show (updateBossData "TestBoss" (now + testSpawnOffset) rows).2[i]? = _
  unfold updateBossData
  rw [hfind]
  exact setRow_get_self rows i _ r hget

/-- C5, witness: with a sheet containing a TestBoss row, the write
lands in that row with the 1 h 58 min spawn time and upcoming status. -/
theorem test_notification_contract_witness :
    (sendTestNotification true 0 [⟨"TestBoss", "X", none, ""⟩] startState).rows[0]?
      = some ⟨"TestBoss", "X", some (0 + testSpawnOffset), "upcoming"⟩ :=
  (test_notification_contract true 0 [⟨"TestBoss", "X", none, ""⟩] startState).2.2.2 0
    ⟨"TestBoss", "X", none, ""⟩ (by decide) rfl

/-- C5, counterexample: the test-notification path leaves the
scheduler state exactly as it was — no delayed reminder timer is
armed, contradicting the original claim. -/
theorem test_notification_no_timer_cex :
    (sendTestNotification true 0 [⟨"TestBoss", "X", none, ""⟩] startState).sched = startState
    ∧ (sendTestNotification true 0
        [⟨"TestBoss", "X", none, ""⟩] startState).sched.registry = [] := by
  decide

/-- C6 (amended): the webhook handler returns 200 whenever every event
handler settles without an uncaught exception — in particular even
when an update fails or its date text does not parse, since those are
caught per event and answered with a reply; but when an exception
escapes an event handler (for example the reply delivery itself
throws), Promise.all rejects and the handler returns 500, not 200. -/
theorem webhook_ok_returns_200 (env : WebEnv) (st : WebState) (events : List LineEvent)
    (h : env.replyOk = true) : webhookStatus env st events = 200 := by
  obtain ⟨st2, h2⟩ := runEvents_isOk env h events st
  simp [webhookStatus, h2]

/-- C6, witness: a request whose update command has an unparseable
date still gets 200. -/
theorem webhook_ok_returns_200_witness :
    webhookStatus ⟨fun _ => none, true, true, 0, 0, 30⟩ ⟨[], startState, [], 0⟩
      [LineEvent.textMsg "U1" "!update Death tomorrow"] = 200 :=
  webhook_ok_returns_200 _ _ _ rfl

/-- C6, counterexample: a myid event whose reply delivery throws makes
the handler return 500, so the handler does not always return 200 when
internal processing fails. -/
theorem webhook_error_returns_500_cex :
    webhookStatus ⟨fun _ => none, false, true, 0, 0, 30⟩ ⟨[], startState, [], 0⟩
      [LineEvent.textMsg "U1" "myid"] = 500 := by
  decide

/-- C7: an update command whose date text does not parse (the
toISOString throw lands in the inner catch) leaves the sheet, the
scheduler and the rebuild count untouched, appends only the
user-visible format-error reply, and the request still completes with
status 200 — no crash, no store mutation, no rebuild. -/
theorem update_parse_failure_safe (env : WebEnv) (st : WebState) (uid text : String)
    (hreply : env.replyOk = true)
    (hmy : lowerString text ≠ "myid")
    (hpre : startsWithStr "!update" text = true)
    (hlen : 3 ≤ (splitSpaces text).length)
    (hparse : env.parseDate (joinSpaces ((splitSpaces text).drop 2)) = none) :
    processEvent env st (.textMsg uid text)
      = .ok { st with replies := st.replies ++ [updateFormatErrorMsg] } ∧
    webhookStatus env st [.textMsg uid text] = 200 := by
  have hproc : processEvent env st (.textMsg uid text)
      = .ok { st with replies := st.replies ++ [updateFormatErrorMsg] } := by
    show (if lowerString text = "myid" then sendReply env st (myIdMsg uid)
      else if startsWithStr "!update" text = true then
        if 3 ≤ (splitSpaces text).length then
          handleUpdate env st ((splitSpaces text).getD 1 "")
            (joinSpaces ((splitSpaces text).drop 2))
        else Except.ok st
      else Except.ok st) = _
    rw [if_neg hmy, if_pos hpre, if_pos hlen]
    unfold handleUpdate
    rw [hparse]
    exact sendReply_ok_eq _ _ _ hreply
  refine ⟨hproc, ?_⟩
  simp [webhookStatus, runEvents, hproc]

/-- C7, witness: a concrete unparseable update command. -/
theorem update_parse_failure_safe_witness :
    processEvent ⟨fun _ => none, true, true, 0, 0, 30⟩ ⟨[], startState, [], 0⟩
        (.textMsg "U" "!update Death tomorrow")
      = .ok ⟨[], startState, [updateFormatErrorMsg], 0⟩ :=
  (update_parse_failure_safe ⟨fun _ => none, true, true, 0, 0, 30⟩ ⟨[], startState, [], 0⟩
    "U" "!update Death tomorrow" rfl (by decide) (by decide) (by decide) rfl).1

/-- C8: first part — an update command naming a boss with no exact
match in the name column makes updateBossData fail with its not-found
condition, the sheet stays unmodified, no rebuild is triggered, the
scheduler is untouched, and only the failure reply is surfaced to the
sender; second part — on a matching name, the write succeeds and sets
the row timestamp to the new value and its status to upcoming, leaving
the other rows alone. -/
theorem update_not_found_and_write :
    (∀ (env : WebEnv) (st : WebState) (uid text : String) (t : Time),
      env.replyOk = true →
      lowerString text ≠ "myid" →
      startsWithStr "!update" text = true →
      3 ≤ (splitSpaces text).length →
      env.parseDate (joinSpaces ((splitSpaces text).drop 2)) = some t →
      st.rows.findIdx? (fun r => r.name == (splitSpaces text).getD 1 "") = none →
      processEvent env st (.textMsg uid text)
        = .ok { st with
            replies := st.replies ++ [updateFailMsg ((splitSpaces text).getD 1 "")] }) ∧
    (∀ (nm : String) (t : Time) (rows : List SheetRow) (i : Nat) (r : SheetRow),
      rows.findIdx? (fun rr => rr.name == nm) = some i →
      rows[i]? = some r →
      updateBossData nm t rows = (true, setRow rows i t) ∧
      (setRow rows i t)[i]? = some { r with time := some t, status := "upcoming" }) := by
  constructor
  · intro env st uid text t hreply hmy hpre hlen hparse hfind
    show (if lowerString text = "myid" then sendReply env st (myIdMsg uid)
      else if startsWithStr "!update" text = true then
        if 3 ≤ (splitSpaces text).length then
          handleUpdate env st ((splitSpaces text).getD 1 "")
            (joinSpaces ((splitSpaces text).drop 2))
        else Except.ok st
      else Except.ok st) = _
    rw [if_neg hmy, if_pos hpre, if_pos hlen]
    unfold handleUpdate
    have hupd : updateBossData ((splitSpaces text).getD 1 "") t st.rows = (false, st.rows) := by
      unfold updateBossData
      rw [hfind]
    simp only [hparse, hupd]
    simp [sendReply_ok_eq _ _ _ hreply]
  · intro nm t rows i r hfind hget
    have hupd : updateBossData nm t rows = (true, setRow rows i t) := by
      unfold updateBossData
      rw [hfind]
    exact ⟨hupd, setRow_get_self rows i t r hget⟩

/-- C8, witness: an update for a name absent from the sheet leaves the
sheet and scheduler untouched and surfaces the failure reply. -/
theorem update_not_found_witness :
    processEvent ⟨fun _ => some 50, true, true, 0, 0, 30⟩
        ⟨[⟨"Ifrit", "L", none, ""⟩], startState, [], 0⟩
        (.textMsg "U" "!update Death 2025-01-01")
      = .ok ⟨[⟨"Ifrit", "L", none, ""⟩], startState, [updateFailMsg "Death"], 0⟩ :=
  update_not_found_and_write.1 ⟨fun _ => some 50, true, true, 0, 0, 30⟩
    ⟨[⟨"Ifrit", "L", none, ""⟩], startState, [], 0⟩ "U" "!update Death 2025-01-01" 50
    rfl (by decide) (by decide) (by decide) rfl (by decide)

/-- C9 (amended): cancelAllJobs cancels every timer held in the
registry and empties the registry; it is idempotent; and no timer that
was in the registry at the call ever fires afterwards.  However a
timer evicted from the registry by a duplicate-name overwrite is NOT
cancelled and can still fire, which corrects the unconditional
never-fires part of the original claim (see the counterexample). -/
theorem cancel_all_contract (s : SchedState) :
    (cancelAllJobs s).registry = [] ∧
    cancelAllJobs (cancelAllJobs s) = cancelAllJobs s ∧
    ∀ id, id ∈ s.registry.map Prod.snd →
      ∀ ok, (fireJob ok (cancelAllJobs s) id).1 = [] :=
  ⟨rfl, cancelAll_idem s, fun id h ok => cancelAll_fire_silent s id h ok⟩

/-- C9, witness: the single registered timer stays silent after
cancelAllJobs. -/
theorem cancel_all_contract_witness :
    (fireJob true (cancelAllJobs (scheduleAllCore [⟨"A", "L", 100, "upcoming"⟩] 0 0
        startState)) 0).1 = [] :=
  (cancel_all_contract (scheduleAllCore [⟨"A", "L", 100, "upcoming"⟩] 0 0 startState)).2.2
    0 (by decide) true

/-- C9, counterexample: after a rebuild from a snapshot with a
duplicated name, the first armed timer was evicted from the registry
by Map.set, cancelAllJobs does not cancel it, and it still fires. -/
theorem cancel_all_leaked_timer_cex :
    (fireJob true (cancelAllJobs (scheduleAllCore
        [⟨"A", "L1", 100, "upcoming"⟩, ⟨"A", "L2", 200, "upcoming"⟩] 0 0 startState)) 0).1
      = [⟨"A", "L1", 100, true⟩] := by
  decide

/-- C10 (amended): when the sheet read fails during a rebuild, the
rebuild behaves exactly like a rebuild over an empty sheet: it still
returns success, every timer held in the registry is cancelled and
stays silent, and the registry ends empty — a store outage is
indistinguishable from a store with no entities.  (As with C9, a timer
leaked out of the registry by a duplicate-name overwrite is not
cancelled; see the counterexample.) -/
theorem store_failure_rebuild_contract (rows : List SheetRow) (readNow now : Time)
    (lead : Int) (s : SchedState) :
    scheduleAllNotifications false rows readNow now lead s = (true, cancelAllJobs s) ∧
    scheduleAllNotifications false rows readNow now lead s
      = scheduleAllNotifications true [] readNow now lead s ∧
    (scheduleAllNotifications false rows readNow now lead s).2.registry = [] ∧
    ∀ id, id ∈ s.registry.map Prod.snd →
      ∀ ok, (fireJob ok (scheduleAllNotifications false rows readNow now lead s).2 id).1
        = [] := by
  refine ⟨rfl, rfl, rfl, ?_⟩
  intro id h ok
  exact cancelAll_fire_silent s id h ok

/-- C10, witness: after a store-failure rebuild, the previously
registered timer stays silent. -/
theorem store_failure_rebuild_witness :
    (fireJob true (scheduleAllNotifications false [] 0 0 0
        (scheduleAllCore [⟨"B", "L", 100, "upcoming"⟩] 0 0 startState)).2 0).1 = [] :=
  (store_failure_rebuild_contract [] 0 0 0
      (scheduleAllCore [⟨"B", "L", 100, "upcoming"⟩] 0 0 startState)).2.2.2
    0 (by decide) true

/-- C10, counterexample: a timer evicted from the registry by a
duplicate-name overwrite survives the store-failure rebuild
un-cancelled and still fires, so not every previously armed timer is
cancelled. -/
theorem store_failure_leaked_timer_cex :
    (fireJob true (scheduleAllNotifications false [] 0 0 0
        (scheduleAllCore [⟨"B", "L1", 100, "upcoming"⟩, ⟨"B", "L2", 200, "upcoming"⟩] 0 0
          startState)).2 0).1
      = [⟨"B", "L1", 100, true⟩] := by
  decide

end BossTracker
